import Mathlib

/-!
Verification of the Handlebars tokenizer
(src/vs/languages/handlebars/common/handlebars.ts).

The file embeds the data model and the tokenize dispatch of
`HandlebarsState`, together with the mode-level state constructors, and
proves the specified properties about them.  The host HTML mode and the
line-stream implementation live outside this repository's src tree; the
few facts needed about them are modelled from the specification and are
marked as such in their doc comments.
-/

/-- The sub-mode discriminator, `enum States` of the source
(HTML is the Markup sub-mode of the spec). -/
inductive States where
  | HTML
  | Expression
  | UnescapedExpression
deriving DecidableEq, Repr

/-- Modelled from the spec: the host markup mode's coarse phase enum
(htmlMode.States is declared outside this repository's src tree: "a coarse
phase enum (e.g. \"in content\" vs \"in tag\")").  Only Content is used by
the code under verification. -/
inductive HtmlStates where
  | Content
  | WithinTag
deriving DecidableEq, BEq, Repr

/-- Modelled from the spec: the inherited markup-state fields of
htmlMode.State ("fields for current tag name, current attribute name,
embedded-content-type, attribute-value quote character, attribute-value
length, and a coarse phase enum"), plus the mode id carried by every
editor state. -/
structure HtmlState where
  modeId : String
  kind : HtmlStates
  lastTagName : String
  lastAttributeName : String
  embeddedContentType : String
  attributeValueQuote : String
  attributeValueLength : Nat
deriving DecidableEq, Repr

/-- `class HandlebarsState extends htmlMode.State`: the inherited markup
fields plus the sub-mode discriminator `handlebarsKind`. -/
structure HandlebarsState extends HtmlState where
  handlebarsKind : States
deriving DecidableEq, Repr

/-- The constructor of `HandlebarsState`, with the source's argument order. -/
def mkHandlebarsState (modeId : String) (kind : HtmlStates) (handlebarsKind : States)
    (lastTagName lastAttributeName embeddedContentType attributeValueQuote : String)
    (attributeValueLength : Nat) : HandlebarsState :=
  ⟨⟨modeId, kind, lastTagName, lastAttributeName, embeddedContentType,
    attributeValueQuote, attributeValueLength⟩, handlebarsKind⟩

/-- `makeClone`: `new HandlebarsState(this.getModeId(), this.kind,
this.handlebarsKind, this.lastTagName, this.lastAttributeName,
this.embeddedContentType, this.attributeValueQuote,
this.attributeValueLength)`. -/
def HandlebarsState.makeClone (s : HandlebarsState) : HandlebarsState :=
  mkHandlebarsState s.modeId s.kind s.handlebarsKind s.lastTagName
    s.lastAttributeName s.embeddedContentType s.attributeValueQuote
    s.attributeValueLength

/-- A `modes.IState` value as seen by `equals`: either a `HandlebarsState`
(the `instanceof HandlebarsState` case) or some other state of the host. -/
inductive IState where
  | handlebars (s : HandlebarsState)
  | hostState (s : HtmlState)
deriving DecidableEq, Repr

/-- Modelled from the spec: `htmlMode.State.equals` (declared outside this
repository's src tree) is the structural comparison of the inherited
markup fields ("it must be clonable and comparable"); as a method of the
host state class it compares exactly the fields that class declares, so
it cannot see the subclass's `handlebarsKind`. -/
def HtmlState.equalsHtml (a b : HtmlState) : Bool :=
  a.modeId == b.modeId &&
  a.kind == b.kind &&
  a.lastTagName == b.lastTagName &&
  a.lastAttributeName == b.lastAttributeName &&
  a.embeddedContentType == b.embeddedContentType &&
  a.attributeValueQuote == b.attributeValueQuote &&
  a.attributeValueLength == b.attributeValueLength

/-- `HandlebarsState.equals`: `if (other instanceof HandlebarsState)
return super.equals(other); return false;` — note that it delegates to the
superclass comparison only and never compares `handlebarsKind` itself. -/
def HandlebarsState.equals (s : HandlebarsState) (other : IState) : Bool :=
  match other with
  | IState.handlebars t => HtmlState.equalsHtml s.toHtmlState t.toHtmlState
  | IState.hostState _ => false

/-- In-place mutation of the discriminator (`this.handlebarsKind = k`),
modelled functionally. -/
def setHandlebarsKind (s : HandlebarsState) (k : States) : HandlebarsState :=
  { s with handlebarsKind := k }

/-- Boolean list-prefix test, used to model the exact-literal match of the
cursor. -/
def listIsPrefix : List Char → List Char → Bool
  | [], _ => true
  | _ :: _, [] => false
  | a :: as, b :: bs => a == b && listIsPrefix as bs

/-- Maximal run of characters satisfying a predicate, used to model the
cursor's consume-while primitives. -/
def takeRun (p : Char → Bool) : List Char → List Char
  | [] => []
  | a :: t => if p a then a :: takeRun p t else []

/-- JavaScript whitespace class (the regex shorthand used by the stream's
whitespace primitive), restricted to the ASCII space characters. -/
def isJsWhitespace (c : Char) : Bool :=
  c == ' ' || c == '\t' || c == '\n' || c == '\r' || c == '\x0b' || c == '\x0c'

/-- The character class of the only predicate the source passes to the
consume-while primitive: not whitespace and not a closing brace. -/
def isWordChar (c : Char) : Bool :=
  !(isJsWhitespace c) && c != '}'

/-- Modelled from the spec: the forward-scanning cursor over the current
line (`modes.IStream` and its line-stream implementation are declared
outside this repository's src tree).  It exposes peek, exact-literal
consume, predicate-run consume, whitespace consume and rewind (spec item 4.2). -/
structure IStream where
  src : List Char
  pos : Nat
deriving DecidableEq, Repr

def IStream.advanceN (st : IStream) (n : Nat) : IStream :=
  { st with pos := st.pos + n }

def IStream.startsWithLit (st : IStream) (lit : List Char) : Bool :=
  listIsPrefix lit (st.src.drop st.pos)

/-- Modelled from the spec: "attempt to consume an exact literal (returns
the consumed text or empty on mismatch, not advancing on mismatch)". -/
def IStream.advanceIfString (st : IStream) (lit : List Char) : List Char × IStream :=
  if st.startsWithLit lit then (lit, st.advanceN lit.length) else ([], st)

/-- Modelled from the spec: "consume while whitespace". -/
def IStream.skipWhitespace (st : IStream) : List Char × IStream :=
  let run := takeRun isJsWhitespace (st.src.drop st.pos)
  (run, st.advanceN run.length)

/-- Modelled from the spec: "consume while a character-class predicate
holds (returns consumed text, possibly empty)", applied to the one
character class the source uses. -/
def IStream.advanceWhileWord (st : IStream) : List Char × IStream :=
  let run := takeRun isWordChar (st.src.drop st.pos)
  (run, st.advanceN run.length)

/-- Modelled from the spec: "peek next character without consuming". -/
def IStream.peek (st : IStream) : Option Char :=
  (st.src.drop st.pos).head?

/-- Modelled from the spec: "step backward by N characters (used to undo a
speculative match)". -/
def IStream.goBack (st : IStream) (n : Nat) : IStream :=
  { st with pos := st.pos - n }

/-- The template delimiters and the `else` literal of the source. -/
def openUnescapedLit : List Char := ['{', '{', '{']

def openEscapedLit : List Char := ['{', '{']

def closeEscapedLit : List Char := ['}', '}']

def closeUnescapedLit : List Char := ['}', '}', '}']

def elseLit : List Char := ['e', 'l', 's', 'e']

/-- The token types the template layer emits: the handlebarsTokenTypes
constants EMBED_UNESCAPED, EMBED, KEYWORD, VARIABLE, plus the empty type
emitted for whitespace. -/
inductive TokenKind where
  | embedUnescaped
  | embed
  | keyword
  | variableName
  | empty
deriving DecidableEq, Repr

/-- Outcome of one `tokenize` call: either a token produced by the
template layer with the resulting state and cursor, or the fall-through
`return super.tokenize(stream)` with the untouched state and cursor. -/
inductive HbResult where
  | token (kind : TokenKind) (state : HandlebarsState) (stream : IStream)
  | delegate (state : HandlebarsState) (stream : IStream)
deriving DecidableEq, Repr

def HbResult.outState : HbResult → HandlebarsState
  | .token _ s _ => s
  | .delegate s _ => s

def HbResult.outStream : HbResult → IStream
  | .token _ _ st => st
  | .delegate _ st => st

/-- The `case States.HTML` block of `tokenize` (lines 56-65). -/
def hbTokenizeHtml (state : HandlebarsState) (stream : IStream) : HbResult :=
  if 0 < (stream.advanceIfString openUnescapedLit).1.length then
    HbResult.token TokenKind.embedUnescaped
      (setHandlebarsKind state States.UnescapedExpression)
      (stream.advanceIfString openUnescapedLit).2
  else if 0 < (stream.advanceIfString openEscapedLit).1.length then
    HbResult.token TokenKind.embed
      (setHandlebarsKind state States.Expression)
      (stream.advanceIfString openEscapedLit).2
  else
    HbResult.delegate state stream

/-- The generic variable rule (lines 101-103) followed by the fall-through
to `super.tokenize` (line 106). -/
def hbVariableRule (state : HandlebarsState) (stream : IStream) : HbResult :=
  if 0 < (stream.advanceWhileWord).1.length then
    HbResult.token TokenKind.variableName state (stream.advanceWhileWord).2
  else
    HbResult.delegate state stream

/-- The `case States.Expression / States.UnescapedExpression` block of
`tokenize` (lines 67-104). -/
def hbTokenizeExpr (state : HandlebarsState) (stream : IStream) : HbResult :=
  if state.handlebarsKind = States.Expression ∧
      0 < (stream.advanceIfString closeEscapedLit).1.length then
    HbResult.token TokenKind.embed (setHandlebarsKind state States.HTML)
      (stream.advanceIfString closeEscapedLit).2
  else if state.handlebarsKind = States.UnescapedExpression ∧
      0 < (stream.advanceIfString closeUnescapedLit).1.length then
    HbResult.token TokenKind.embedUnescaped (setHandlebarsKind state States.HTML)
      (stream.advanceIfString closeUnescapedLit).2
  else if 0 < (stream.skipWhitespace).1.length then
    HbResult.token TokenKind.empty state (stream.skipWhitespace).2
  else if stream.peek = some '#' then
    HbResult.token TokenKind.keyword state (stream.advanceWhileWord).2
  else if stream.peek = some '/' then
    HbResult.token TokenKind.keyword state (stream.advanceWhileWord).2
  else if 0 < (stream.advanceIfString elseLit).1.length then
    if (stream.advanceIfString elseLit).2.peek = some ' ' ∨
        (stream.advanceIfString elseLit).2.peek = some '\t' ∨
        (stream.advanceIfString elseLit).2.peek = some '}' then
      HbResult.token TokenKind.keyword state (stream.advanceIfString elseLit).2
    else
      hbVariableRule state ((stream.advanceIfString elseLit).2.goBack 4)
  else
    hbVariableRule state stream

/-- `HandlebarsState.tokenize` (lines 54-107): dispatch on the sub-mode
discriminator; both switch cases fall through to `super.tokenize` when no
template rule matches. -/
def hbTokenize (state : HandlebarsState) (stream : IStream) : HbResult :=
  if state.handlebarsKind = States.HTML then hbTokenizeHtml state stream
  else hbTokenizeExpr state stream

/-- `HandlebarsMode.getInitialState` (lines 191-193):
`new HandlebarsState(this.getId(), htmlMode.States.Content, States.HTML,
'', '', '', '', 0)`. -/
def getInitialState (modeId : String) : HandlebarsState :=
  mkHandlebarsState modeId HtmlStates.Content States.HTML "" "" "" "" 0

/-- `ILeavingNestedModeData` of the tokenization support. -/
structure LeavingNestedModeData where
  nestedModeBuffer : List Char
  bufferAfterNestedMode : List Char
  stateAfterNestedMode : IState
deriving DecidableEq, Repr

/-- `HandlebarsMode.getLeavingNestedModeData` (lines 195-201).  Modelled
from the spec where the superclass call is concerned: the host's
`getLeavingNestedModeData` is declared outside this repository's src tree,
so its result is taken as an input; the subclass replaces
`stateAfterNestedMode` by a fresh state whenever that result is non-null. -/
def getLeavingNestedModeData (modeId : String)
    (superResult : Option LeavingNestedModeData) : Option LeavingNestedModeData :=
  match superResult with
  | none => none
  | some d =>
    let fresh := mkHandlebarsState modeId HtmlStates.Content States.HTML "" "" "" "" 0
    some { d with stateAfterNestedMode := IState.handlebars fresh }

/-- The mode id used by concrete runs below. -/
def HB_MODE_ID : String := "handlebars"

def hbInitState : HandlebarsState := getInitialState HB_MODE_ID

/-- Run the template layer repeatedly from a state over a line, collecting
each token's kind and consumed span (start and end cursor positions);
`none` when a call would fall through to the host HTML tokenizer. -/
def hbRunAux : Nat → HandlebarsState → IStream →
    Option (List (TokenKind × Nat × Nat) × HandlebarsState)
  | 0, s, st => if st.src.length ≤ st.pos then some ([], s) else none
  | Nat.succ fuel, s, st =>
    if st.src.length ≤ st.pos then some ([], s)
    else
      match hbTokenize s st with
      | HbResult.delegate _ _ => none
      | HbResult.token k s' st' =>
        match hbRunAux fuel s' st' with
        | none => none
        | some (rest, sEnd) => some ((k, st.pos, st'.pos) :: rest, sEnd)

/-- Tokenize a whole line from the initial state using only the template
layer. -/
def hbRun (cs : List Char) : Option (List (TokenKind × Nat × Nat) × HandlebarsState) :=
  hbRunAux (cs.length + 1) hbInitState ⟨cs, 0⟩

/-- Concatenation of consumed spans. -/
def joinSpans : List (List Char) → List Char
  | [] => []
  | a :: t => a ++ joinSpans t

/-- Contract of the host HTML tokenizer (modelled from the spec: the
fallback "always make[s] progress on well-formed input" and scans the same
line forward): it preserves the line, strictly advances the cursor and
stays within the line. -/
def HostContract (host : HandlebarsState → IStream → HandlebarsState × IStream) : Prop :=
  ∀ s st, st.pos < st.src.length →
    (host s st).2.src = st.src ∧ st.pos < (host s st).2.pos ∧
    (host s st).2.pos ≤ st.src.length

/-- One step of the host editor loop: a `tokenize` call, with the
fall-through resolved by the host tokenizer. -/
def tokenizeStep (host : HandlebarsState → IStream → HandlebarsState × IStream)
    (s : HandlebarsState) (st : IStream) : HandlebarsState × IStream :=
  match hbTokenize s st with
  | HbResult.token _ s' st' => (s', st')
  | HbResult.delegate s' st' => host s' st'

/-- The host editor loop over one line, collecting the span consumed by
each successive `tokenize` call. -/
def runSpans (host : HandlebarsState → IStream → HandlebarsState × IStream) :
    Nat → HandlebarsState → IStream → List (List Char)
  | 0, _, _ => []
  | Nat.succ fuel, s, st =>
    if st.src.length ≤ st.pos then []
    else
      (st.src.drop st.pos).take ((tokenizeStep host s st).2.pos - st.pos) ::
        runSpans host fuel (tokenizeStep host s st).1 (tokenizeStep host s st).2


/-! ### Basic facts about the cursor primitives -/

theorem listIsPrefix_iff (p l : List Char) :
    listIsPrefix p l = true ↔ ∃ t, l = p ++ t := by
  induction p generalizing l with
  | nil => simp [listIsPrefix]
  | cons a as ih =>
    cases l with
    | nil => simp [listIsPrefix]
    | cons b bs =>
      simp only [listIsPrefix, Bool.and_eq_true, beq_iff_eq, ih, List.cons_append]
      constructor
      · rintro ⟨rfl, t, rfl⟩
        exact ⟨t, rfl⟩
      · rintro ⟨t, ht⟩
        injection ht with h1 h2
        exact ⟨h1.symm, t, h2⟩

theorem startsWithLit_exists {st : IStream} {lit : List Char}
    (h : st.startsWithLit lit = true) : ∃ t, st.src.drop st.pos = lit ++ t :=
  (listIsPrefix_iff lit (st.src.drop st.pos)).mp h

theorem startsWithLit_of_exists {st : IStream} {lit t : List Char}
    (h : st.src.drop st.pos = lit ++ t) : st.startsWithLit lit = true :=
  (listIsPrefix_iff lit (st.src.drop st.pos)).mpr ⟨t, h⟩

theorem startsWithLit_bound {st : IStream} {lit : List Char}
    (h : st.startsWithLit lit = true) (hne : 0 < lit.length) :
    st.pos + lit.length ≤ st.src.length ∧ st.pos < st.src.length := by
  obtain ⟨t, ht⟩ := startsWithLit_exists h
  have hlen : st.src.length - st.pos = lit.length + t.length := by
    rw [← List.length_drop, ht, List.length_append]
  omega

theorem peek_of_startsWithLit {st : IStream} {c : Char} {cs : List Char}
    (h : st.startsWithLit (c :: cs) = true) : st.peek = some c := by
  obtain ⟨t, ht⟩ := startsWithLit_exists h
  simp [IStream.peek, ht]

theorem peek_some_exists {st : IStream} {c : Char} (h : st.peek = some c) :
    ∃ t, st.src.drop st.pos = c :: t := by
  unfold IStream.peek at h
  cases hd : st.src.drop st.pos with
  | nil => rw [hd] at h; simp at h
  | cons b bs =>
    rw [hd] at h
    simp at h
    exact ⟨bs, by rw [h]⟩

theorem advanceIfString_pos {st : IStream} {lit : List Char}
    (h : 0 < (st.advanceIfString lit).1.length) : st.startsWithLit lit = true := by
  by_cases hsw : st.startsWithLit lit = true
  · exact hsw
  · simp [IStream.advanceIfString, hsw] at h

theorem advanceIfString_zero {st : IStream} {lit : List Char}
    (h : ¬ 0 < (st.advanceIfString lit).1.length) (hne : 0 < lit.length) :
    st.startsWithLit lit = false := by
  by_cases hsw : st.startsWithLit lit = true
  · exact absurd (by simp [IStream.advanceIfString, hsw, hne]) h
  · simp at hsw
    exact hsw

theorem advanceIfString_fst {st : IStream} {lit : List Char}
    (hsw : st.startsWithLit lit = true) : (st.advanceIfString lit).1 = lit := by
  simp [IStream.advanceIfString, hsw]

theorem advanceIfString_snd {st : IStream} {lit : List Char}
    (hsw : st.startsWithLit lit = true) :
    (st.advanceIfString lit).2 = st.advanceN lit.length := by
  simp [IStream.advanceIfString, hsw]

theorem advanceIfString_len_pos {st : IStream} {lit : List Char}
    (hsw : st.startsWithLit lit = true) (hne : 0 < lit.length) :
    0 < (st.advanceIfString lit).1.length := by
  simp [IStream.advanceIfString, hsw, hne]

theorem takeRun_length_le (p : Char → Bool) (l : List Char) :
    (takeRun p l).length ≤ l.length := by
  induction l with
  | nil => simp [takeRun]
  | cons a t ih =>
    by_cases hp : p a = true
    · simp [takeRun, hp]
      omega
    · simp [takeRun, hp]

theorem takeRun_cons_pos {p : Char → Bool} {a : Char} (t : List Char)
    (hp : p a = true) : takeRun p (a :: t) = a :: takeRun p t := by
  simp [takeRun, hp]

theorem takeRun_cons_neg {p : Char → Bool} {a : Char} (t : List Char)
    (hp : p a = false) : takeRun p (a :: t) = [] := by
  simp [takeRun, hp]

theorem run_pos_bound {st : IStream} {p : Char → Bool}
    (h : 0 < (takeRun p (st.src.drop st.pos)).length) :
    st.pos + (takeRun p (st.src.drop st.pos)).length ≤ st.src.length ∧
    st.pos < st.src.length := by
  have h1 := takeRun_length_le p (st.src.drop st.pos)
  rw [List.length_drop] at h1
  omega

theorem advanceN_goBack (st : IStream) (n : Nat) : (st.advanceN n).goBack n = st := by
  simp [IStream.advanceN, IStream.goBack]

theorem advanceN_src (st : IStream) (n : Nat) : (st.advanceN n).src = st.src := rfl

theorem advanceWhileWord_pos_of_peek {st : IStream} {c : Char}
    (hp : st.peek = some c) (hw : isWordChar c = true) :
    0 < (st.advanceWhileWord).1.length := by
  obtain ⟨t, ht⟩ := peek_some_exists hp
  simp [IStream.advanceWhileWord, ht, takeRun_cons_pos t hw]

theorem skipWhitespace_zero_of_peek {st : IStream} {c : Char}
    (hp : st.peek = some c) (hw : isJsWhitespace c = false) :
    ¬ 0 < (st.skipWhitespace).1.length := by
  obtain ⟨t, ht⟩ := peek_some_exists hp
  simp [IStream.skipWhitespace, ht, takeRun_cons_neg t hw]

/-! ### Branch characterizations of the tokenize dispatch -/

theorem startsWith_openU_imp {st : IStream}
    (h : st.startsWithLit openUnescapedLit = true) :
    st.startsWithLit openEscapedLit = true := by
  obtain ⟨t, ht⟩ := startsWithLit_exists h
  exact startsWithLit_of_exists (t := '{' :: t) (by simpa [openUnescapedLit, openEscapedLit] using ht)

theorem hbVariableRule_outState (s : HandlebarsState) (st : IStream) :
    (hbVariableRule s st).outState = s := by
  unfold hbVariableRule
  split <;> rfl

theorem hbTokenizeHtml_outState (s : HandlebarsState) (st : IStream) :
    (hbTokenizeHtml s st).outState = s ∨ st.startsWithLit openEscapedLit = true := by
  unfold hbTokenizeHtml
  split_ifs with h1 h2
  · exact Or.inr (startsWith_openU_imp (advanceIfString_pos h1))
  · exact Or.inr (advanceIfString_pos h2)
  · exact Or.inl rfl

theorem hbTokenizeExpr_outState (s : HandlebarsState) (st : IStream) :
    (hbTokenizeExpr s st).outState = s ∨
    (s.handlebarsKind = States.Expression ∧ st.startsWithLit closeEscapedLit = true ∧
      (hbTokenizeExpr s st).outState = setHandlebarsKind s States.HTML) ∨
    (s.handlebarsKind = States.UnescapedExpression ∧
      st.startsWithLit closeUnescapedLit = true ∧
      (hbTokenizeExpr s st).outState = setHandlebarsKind s States.HTML) := by
  unfold hbTokenizeExpr
  split_ifs with h1 h2 h3 h4 h5 h6 h7
  · exact Or.inr (Or.inl ⟨h1.1, advanceIfString_pos h1.2, rfl⟩)
  · exact Or.inr (Or.inr ⟨h2.1, advanceIfString_pos h2.2, rfl⟩)
  · exact Or.inl rfl
  · exact Or.inl rfl
  · exact Or.inl rfl
  · exact Or.inl rfl
  · exact Or.inl (hbVariableRule_outState s _)
  · exact Or.inl (hbVariableRule_outState s st)

theorem hbTokenizeHtml_openU (s : HandlebarsState) (st : IStream)
    (hsw : st.startsWithLit openUnescapedLit = true) :
    hbTokenizeHtml s st = HbResult.token TokenKind.embedUnescaped
      (setHandlebarsKind s States.UnescapedExpression) (st.advanceN 3) := by
  unfold hbTokenizeHtml
  rw [if_pos (advanceIfString_len_pos hsw (by decide)), advanceIfString_snd hsw]
  rfl

theorem hbTokenizeHtml_openE (s : HandlebarsState) (st : IStream)
    (hswU : st.startsWithLit openUnescapedLit = false)
    (hsw : st.startsWithLit openEscapedLit = true) :
    hbTokenizeHtml s st = HbResult.token TokenKind.embed
      (setHandlebarsKind s States.Expression) (st.advanceN 2) := by
  unfold hbTokenizeHtml
  rw [if_neg, if_pos (advanceIfString_len_pos hsw (by decide)), advanceIfString_snd hsw]
  · rfl
  · intro h
    rw [advanceIfString_pos h] at hswU
    exact Bool.true_eq_false.mp hswU

theorem hbTokenizeHtml_noMatch (s : HandlebarsState) (st : IStream)
    (hsw : st.startsWithLit openEscapedLit = false) :
    hbTokenizeHtml s st = HbResult.delegate s st := by
  have hswU : st.startsWithLit openUnescapedLit = false := by
    by_cases h : st.startsWithLit openUnescapedLit = true
    · rw [startsWith_openU_imp h] at hsw
      exact absurd hsw (by simp)
    · simpa using h
  unfold hbTokenizeHtml
  rw [if_neg, if_neg]
  · intro h
    rw [advanceIfString_pos h] at hsw
    exact Bool.true_eq_false.mp hsw
  · intro h
    rw [advanceIfString_pos h] at hswU
    exact Bool.true_eq_false.mp hswU

theorem hbTokenizeExpr_closeE (s : HandlebarsState) (st : IStream)
    (hk : s.handlebarsKind = States.Expression)
    (hsw : st.startsWithLit closeEscapedLit = true) :
    hbTokenizeExpr s st = HbResult.token TokenKind.embed
      (setHandlebarsKind s States.HTML) (st.advanceN 2) := by
  unfold hbTokenizeExpr
  rw [if_pos ⟨hk, advanceIfString_len_pos hsw (by decide)⟩, advanceIfString_snd hsw]
  rfl

theorem hbTokenizeExpr_closeU (s : HandlebarsState) (st : IStream)
    (hk : s.handlebarsKind = States.UnescapedExpression)
    (hsw : st.startsWithLit closeUnescapedLit = true) :
    hbTokenizeExpr s st = HbResult.token TokenKind.embedUnescaped
      (setHandlebarsKind s States.HTML) (st.advanceN 3) := by
  unfold hbTokenizeExpr
  rw [if_neg, if_pos ⟨hk, advanceIfString_len_pos hsw (by decide)⟩, advanceIfString_snd hsw]
  · rfl
  · rintro ⟨hkE, -⟩
    rw [hk] at hkE
    exact States.noConfusion hkE

theorem startsWithLit_false_of_peek {st : IStream} {c c0 : Char} {rest : List Char}
    (hp : st.peek = some c) (hne : c = c0 → False) :
    st.startsWithLit (c0 :: rest) = false := by
  by_cases h : st.startsWithLit (c0 :: rest) = true
  · have h2 := peek_of_startsWithLit h
    rw [hp] at h2
    injection h2 with h3
    exact absurd h3 hne
  · simpa using h

theorem hbVariableRule_token {s : HandlebarsState} {st : IStream}
    (hpos : 0 < (st.advanceWhileWord).1.length) :
    hbVariableRule s st = HbResult.token TokenKind.variableName s (st.advanceWhileWord).2 := by
  unfold hbVariableRule
  rw [if_pos hpos]

theorem hbTokenizeExpr_notClose {s : HandlebarsState} {st : IStream} {c : Char}
    (hp : st.peek = some c) (hne : c = '}' → False) :
    (¬(s.handlebarsKind = States.Expression ∧
        0 < (st.advanceIfString closeEscapedLit).1.length)) ∧
    (¬(s.handlebarsKind = States.UnescapedExpression ∧
        0 < (st.advanceIfString closeUnescapedLit).1.length)) := by
  constructor
  · rintro ⟨-, hlen⟩
    have hsw := advanceIfString_pos hlen
    rw [show closeEscapedLit = '}' :: ['}'] from rfl,
      startsWithLit_false_of_peek hp hne] at hsw
    exact Bool.false_ne_true hsw
  · rintro ⟨-, hlen⟩
    have hsw := advanceIfString_pos hlen
    rw [show closeUnescapedLit = '}' :: ['}', '}'] from rfl,
      startsWithLit_false_of_peek hp hne] at hsw
    exact Bool.false_ne_true hsw

theorem hbTokenizeExpr_hash (s : HandlebarsState) (st : IStream)
    (hp : st.peek = some '#') :
    hbTokenizeExpr s st = HbResult.token TokenKind.keyword s (st.advanceWhileWord).2 := by
  obtain ⟨g1, g2⟩ := hbTokenizeExpr_notClose hp (by decide)
  have hws := skipWhitespace_zero_of_peek hp (by decide)
  unfold hbTokenizeExpr
  rw [if_neg g1, if_neg g2, if_neg hws, if_pos hp]

theorem hbTokenizeExpr_slash (s : HandlebarsState) (st : IStream)
    (hp : st.peek = some '/') :
    hbTokenizeExpr s st = HbResult.token TokenKind.keyword s (st.advanceWhileWord).2 := by
  obtain ⟨g1, g2⟩ := hbTokenizeExpr_notClose hp (by decide)
  have hws := skipWhitespace_zero_of_peek hp (by decide)
  have g4 : ¬ st.peek = some '#' := by rw [hp]; decide
  unfold hbTokenizeExpr
  rw [if_neg g1, if_neg g2, if_neg hws, if_neg g4, if_pos hp]

theorem peek_of_elseLit {st : IStream} (he : st.startsWithLit elseLit = true) :
    st.peek = some 'e' :=
  @peek_of_startsWithLit st 'e' ['l', 's', 'e'] he

theorem hbTokenizeExpr_else_kw (s : HandlebarsState) (st : IStream)
    (he : st.startsWithLit elseLit = true)
    (hnext : (st.advanceN 4).peek = some ' ' ∨ (st.advanceN 4).peek = some '\t' ∨
      (st.advanceN 4).peek = some '}') :
    hbTokenizeExpr s st = HbResult.token TokenKind.keyword s (st.advanceN 4) := by
  have hpe := peek_of_elseLit he
  obtain ⟨g1, g2⟩ := hbTokenizeExpr_notClose hpe (by decide)
  have hws := skipWhitespace_zero_of_peek hpe (by decide)
  have g4 : ¬ st.peek = some '#' := by rw [hpe]; decide
  have g5 : ¬ st.peek = some '/' := by rw [hpe]; decide
  have g6 := advanceIfString_len_pos he (by decide)
  have h4 : st.advanceN elseLit.length = st.advanceN 4 := rfl
  unfold hbTokenizeExpr
  rw [if_neg g1, if_neg g2, if_neg hws, if_neg g4, if_neg g5, if_pos g6,
    advanceIfString_snd he, h4, if_pos hnext]

theorem advanceWhileWord_of_else {st : IStream}
    (he : st.startsWithLit elseLit = true) :
    4 ≤ (st.advanceWhileWord).1.length := by
  obtain ⟨t, ht⟩ := startsWithLit_exists he
  have hrun : takeRun isWordChar (st.src.drop st.pos) =
      'e' :: 'l' :: 's' :: 'e' :: takeRun isWordChar t := by
    rw [ht, show elseLit ++ t = 'e' :: 'l' :: 's' :: 'e' :: t from rfl,
      takeRun_cons_pos _ (by decide), takeRun_cons_pos _ (by decide),
      takeRun_cons_pos _ (by decide), takeRun_cons_pos _ (by decide)]
  simp only [IStream.advanceWhileWord, hrun, List.length_cons]
  omega

theorem hbTokenizeExpr_else_var (s : HandlebarsState) (st : IStream)
    (he : st.startsWithLit elseLit = true)
    (hnext : ¬((st.advanceN 4).peek = some ' ' ∨ (st.advanceN 4).peek = some '\t' ∨
      (st.advanceN 4).peek = some '}')) :
    hbTokenizeExpr s st =
      HbResult.token TokenKind.variableName s (st.advanceWhileWord).2 ∧
    4 ≤ (st.advanceWhileWord).1.length := by
  have hrun := advanceWhileWord_of_else he
  have hpe := peek_of_elseLit he
  obtain ⟨g1, g2⟩ := hbTokenizeExpr_notClose hpe (by decide)
  have hws := skipWhitespace_zero_of_peek hpe (by decide)
  have g4 : ¬ st.peek = some '#' := by rw [hpe]; decide
  have g5 : ¬ st.peek = some '/' := by rw [hpe]; decide
  have g6 := advanceIfString_len_pos he (by decide)
  have h4 : st.advanceN elseLit.length = st.advanceN 4 := rfl
  refine ⟨?_, hrun⟩
  unfold hbTokenizeExpr
  rw [if_neg g1, if_neg g2, if_neg hws, if_neg g4, if_neg g5, if_pos g6,
    advanceIfString_snd he, h4, if_neg hnext, advanceN_goBack]
  exact hbVariableRule_token (by omega)

/-! ### Progress and delegation facts -/

theorem hbVariableRule_progress {s : HandlebarsState} {st : IStream} {k : TokenKind}
    {s' : HandlebarsState} {st' : IStream}
    (h : hbVariableRule s st = HbResult.token k s' st') :
    st'.src = st.src ∧ st.pos < st'.pos ∧ st'.pos ≤ st.src.length := by
  unfold hbVariableRule at h
  split_ifs at h with hv
  · simp only [IStream.advanceWhileWord] at hv h
    injection h with hA hB hC
    subst hC
    obtain ⟨hb, hlt⟩ := @run_pos_bound st isWordChar hv
    refine ⟨rfl, ?_, ?_⟩ <;> simp only [IStream.advanceN] <;> omega

theorem hbTokenize_token_progress (s : HandlebarsState) (st : IStream) (k : TokenKind)
    (s' : HandlebarsState) (st' : IStream)
    (h : hbTokenize s st = HbResult.token k s' st') :
    st'.src = st.src ∧ st.pos < st'.pos ∧ st'.pos ≤ st.src.length := by
  unfold hbTokenize at h
  split_ifs at h with hk0
  · unfold hbTokenizeHtml at h
    split_ifs at h with h1 h2
    · have hsw := advanceIfString_pos h1
      obtain ⟨hb, hlt⟩ := startsWithLit_bound hsw (by decide)
      have hL : openUnescapedLit.length = 3 := rfl
      rw [advanceIfString_snd hsw, hL] at h
      rw [hL] at hb
      injection h with hA hB hC
      subst hC
      refine ⟨rfl, ?_, ?_⟩ <;> simp only [IStream.advanceN] <;> omega
    · have hsw := advanceIfString_pos h2
      obtain ⟨hb, hlt⟩ := startsWithLit_bound hsw (by decide)
      have hL : openEscapedLit.length = 2 := rfl
      rw [advanceIfString_snd hsw, hL] at h
      rw [hL] at hb
      injection h with hA hB hC
      subst hC
      refine ⟨rfl, ?_, ?_⟩ <;> simp only [IStream.advanceN] <;> omega
  · unfold hbTokenizeExpr at h
    split_ifs at h with h1 h2 h3 h4 h5 h6 h7
    · have hsw := advanceIfString_pos h1.2
      obtain ⟨hb, hlt⟩ := startsWithLit_bound hsw (by decide)
      have hL : closeEscapedLit.length = 2 := rfl
      rw [advanceIfString_snd hsw, hL] at h
      rw [hL] at hb
      injection h with hA hB hC
      subst hC
      refine ⟨rfl, ?_, ?_⟩ <;> simp only [IStream.advanceN] <;> omega
    · have hsw := advanceIfString_pos h2.2
      obtain ⟨hb, hlt⟩ := startsWithLit_bound hsw (by decide)
      have hL : closeUnescapedLit.length = 3 := rfl
      rw [advanceIfString_snd hsw, hL] at h
      rw [hL] at hb
      injection h with hA hB hC
      subst hC
      refine ⟨rfl, ?_, ?_⟩ <;> simp only [IStream.advanceN] <;> omega
    · simp only [IStream.skipWhitespace] at h3 h
      injection h with hA hB hC
      subst hC
      obtain ⟨hb, hlt⟩ := @run_pos_bound st isJsWhitespace h3
      refine ⟨rfl, ?_, ?_⟩ <;> simp only [IStream.advanceN] <;> omega
    · have hv : 0 < (st.advanceWhileWord).1.length :=
        advanceWhileWord_pos_of_peek h4 (by decide)
      simp only [IStream.advanceWhileWord] at hv h
      injection h with hA hB hC
      subst hC
      obtain ⟨hb, hlt⟩ := @run_pos_bound st isWordChar hv
      refine ⟨rfl, ?_, ?_⟩ <;> simp only [IStream.advanceN] <;> omega
    · have hv : 0 < (st.advanceWhileWord).1.length :=
        advanceWhileWord_pos_of_peek h5 (by decide)
      simp only [IStream.advanceWhileWord] at hv h
      injection h with hA hB hC
      subst hC
      obtain ⟨hb, hlt⟩ := @run_pos_bound st isWordChar hv
      refine ⟨rfl, ?_, ?_⟩ <;> simp only [IStream.advanceN] <;> omega
    · have hsw := advanceIfString_pos h6
      obtain ⟨hb, hlt⟩ := startsWithLit_bound hsw (by decide)
      have hL : elseLit.length = 4 := rfl
      rw [advanceIfString_snd hsw, hL] at h
      rw [hL] at hb
      injection h with hA hB hC
      subst hC
      refine ⟨rfl, ?_, ?_⟩ <;> simp only [IStream.advanceN] <;> omega
    · have hsw := advanceIfString_pos h6
      rw [advanceIfString_snd hsw,
        show st.advanceN elseLit.length = st.advanceN 4 from rfl, advanceN_goBack] at h
      exact hbVariableRule_progress h
    · exact hbVariableRule_progress h

theorem hbTokenize_delegate_eq (s : HandlebarsState) (st : IStream)
    (s' : HandlebarsState) (st' : IStream)
    (h : hbTokenize s st = HbResult.delegate s' st') : s' = s ∧ st' = st := by
  unfold hbTokenize at h
  split_ifs at h with hk0
  · unfold hbTokenizeHtml at h
    split_ifs at h with h1 h2
    · injection h with hA hB
      exact ⟨hA.symm, hB.symm⟩
  · unfold hbTokenizeExpr at h
    split_ifs at h with h1 h2 h3 h4 h5 h6 h7
    · have hsw := advanceIfString_pos h6
      rw [advanceIfString_snd hsw,
        show st.advanceN elseLit.length = st.advanceN 4 from rfl, advanceN_goBack] at h
      unfold hbVariableRule at h
      split_ifs at h with hv
      injection h with hA hB
      exact ⟨hA.symm, hB.symm⟩
    · unfold hbVariableRule at h
      split_ifs at h with hv
      injection h with hA hB
      exact ⟨hA.symm, hB.symm⟩

theorem tokenizeStep_spec (host : HandlebarsState → IStream → HandlebarsState × IStream)
    (hc : HostContract host) (s : HandlebarsState) (st : IStream)
    (hpos : st.pos < st.src.length) :
    (tokenizeStep host s st).2.src = st.src ∧ st.pos < (tokenizeStep host s st).2.pos ∧
    (tokenizeStep host s st).2.pos ≤ st.src.length := by
  unfold tokenizeStep
  cases hres : hbTokenize s st with
  | token k s' st' =>
    exact hbTokenize_token_progress s st k s' st' hres
  | delegate s' st' =>
    obtain ⟨hs, hst⟩ := hbTokenize_delegate_eq s st s' st' hres
    subst hs
    subst hst
    exact hc s' st' hpos

/-! ### Concrete inputs used in the claims -/

def elseLine : List Char := ['{', '{', 'e', 'l', 's', 'e', '}', '}']

def elseValueLine : List Char :=
  ['{', '{', 'e', 'l', 's', 'e', 'V', 'a', 'l', 'u', 'e', '}', '}']

def ifCondLine : List Char :=
  ['{', '{', '#', 'i', 'f', ' ', 'c', 'o', 'n', 'd', '}', '}']

def ifCondTokens : List (TokenKind × Nat × Nat) :=
  [(TokenKind.embed, 0, 2), (TokenKind.keyword, 2, 5), (TokenKind.empty, 5, 6),
   (TokenKind.variableName, 6, 10), (TokenKind.embed, 10, 12)]

/-- Two states that differ only in the sub-mode discriminator. -/
def hbCexStateA : HandlebarsState :=
  mkHandlebarsState HB_MODE_ID HtmlStates.Content States.Expression "" "" "" "" 0

def hbCexStateB : HandlebarsState :=
  mkHandlebarsState HB_MODE_ID HtmlStates.Content States.HTML "" "" "" "" 0

/-! ### The claims -/

/-- C1: the claim states that `equals` returns true iff the other state is
a `HandlebarsState` and every field compares equal, including the
`handlebarsKind` discriminator, so that two states that differ only in
`handlebarsKind` are not equal.  The code violates this: `equals` merely
checks `instanceof` and then returns `super.equals(other)`, and the
superclass comparison cannot see `handlebarsKind`.  This theorem evaluates
the embedded code at the failing input: two states identical except for
the discriminator compare equal (while the cross-kind comparison does
return false, as the claim also says). -/
theorem hb_C1 :
    HandlebarsState.equals hbCexStateA (IState.handlebars hbCexStateB) = true ∧
    hbCexStateA.handlebarsKind ≠ hbCexStateB.handlebarsKind ∧
    hbCexStateA.toHtmlState = hbCexStateB.toHtmlState ∧
    HandlebarsState.equals hbCexStateA (IState.hostState hbCexStateB.toHtmlState) = false := by
  refine ⟨by decide, by decide, by decide, by decide⟩

/-- C2: the sub-mode discriminator changes only in the four
delimiter-matching branches of tokenize — a changed discriminator implies
the state was HTML (Markup) and the cursor matched an opening double
brace, or the state was Expression and the cursor matched the closing
double brace, or the state was UnescapedExpression and the cursor matched
the closing triple brace; in particular an unterminated expression keeps
its discriminator (Expression stays Expression while no closing double
brace is under the cursor, UnescapedExpression stays UnescapedExpression
while no closing triple brace is), so it persists across line ends. -/
theorem hb_C2 (s : HandlebarsState) (st : IStream) :
    ((hbTokenize s st).outState.handlebarsKind ≠ s.handlebarsKind →
      (s.handlebarsKind = States.HTML ∧ st.startsWithLit openEscapedLit = true) ∨
      (s.handlebarsKind = States.Expression ∧ st.startsWithLit closeEscapedLit = true) ∨
      (s.handlebarsKind = States.UnescapedExpression ∧
        st.startsWithLit closeUnescapedLit = true)) ∧
    (s.handlebarsKind = States.Expression → st.startsWithLit closeEscapedLit = false →
      (hbTokenize s st).outState.handlebarsKind = States.Expression) ∧
    (s.handlebarsKind = States.UnescapedExpression →
      st.startsWithLit closeUnescapedLit = false →
      (hbTokenize s st).outState.handlebarsKind = States.UnescapedExpression) := by
  by_cases hk : s.handlebarsKind = States.HTML
  · have hdis : hbTokenize s st = hbTokenizeHtml s st := by
      unfold hbTokenize
      rw [if_pos hk]
    rw [hdis]
    refine ⟨?_, ?_, ?_⟩
    · intro hne
      rcases hbTokenizeHtml_outState s st with h | h
      · rw [h] at hne
        exact absurd rfl hne
      · exact Or.inl ⟨hk, h⟩
    · intro hkE
      rw [hkE] at hk
      exact absurd hk (by decide)
    · intro hkU
      rw [hkU] at hk
      exact absurd hk (by decide)
  · have hdis : hbTokenize s st = hbTokenizeExpr s st := by
      unfold hbTokenize
      rw [if_neg hk]
    rw [hdis]
    refine ⟨?_, ?_, ?_⟩
    · intro hne
      rcases hbTokenizeExpr_outState s st with h | ⟨hkE, hsw, hout⟩ | ⟨hkU, hsw, hout⟩
      · rw [h] at hne
        exact absurd rfl hne
      · exact Or.inr (Or.inl ⟨hkE, hsw⟩)
      · exact Or.inr (Or.inr ⟨hkU, hsw⟩)
    · intro hkE hswf
      rcases hbTokenizeExpr_outState s st with h | ⟨hkE2, hsw, hout⟩ | ⟨hkU, hsw, hout⟩
      · rw [h, hkE]
      · rw [hsw] at hswf
        exact absurd hswf (by decide)
      · rw [hkE] at hkU
        exact States.noConfusion hkU
    · intro hkU hswf
      rcases hbTokenizeExpr_outState s st with h | ⟨hkE2, hsw, hout⟩ | ⟨hkU2, hsw, hout⟩
      · rw [h, hkU]
      · rw [hkU] at hkE2
        exact States.noConfusion hkE2
      · rw [hsw] at hswf
        exact absurd hswf (by decide)

def c2State : HandlebarsState := setHandlebarsKind hbInitState States.Expression

def c2Stream : IStream := ⟨['a', 'b'], 0⟩

/-- C2 witness: a state in Expression sub-mode over a line with no closing
delimiter keeps the Expression discriminator. -/
theorem hb_C2_witness :
    (hbTokenize c2State c2Stream).outState.handlebarsKind = States.Expression :=
  (hb_C2 c2State c2Stream).2.1 rfl (by decide)

/-- C3: the closing delimiters are not interchangeable — from
UnescapedExpression the discriminator becomes HTML (Markup) exactly when
the closing triple brace is matched, and that branch emits
EmbedUnescaped; from Expression it becomes HTML exactly when the closing
double brace is matched, emitting Embed; and no tokenize step produces an
Expression state by matching a triple brace: an Expression result from a
non-Expression state forces the HTML state with a double-brace (and not
triple-brace) opening match. -/
theorem hb_C3 (s : HandlebarsState) (st : IStream) :
    (s.handlebarsKind = States.UnescapedExpression →
      (((hbTokenize s st).outState.handlebarsKind = States.HTML) ↔
        st.startsWithLit closeUnescapedLit = true) ∧
      (st.startsWithLit closeUnescapedLit = true →
        hbTokenize s st = HbResult.token TokenKind.embedUnescaped
          (setHandlebarsKind s States.HTML) (st.advanceN 3))) ∧
    (s.handlebarsKind = States.Expression →
      (((hbTokenize s st).outState.handlebarsKind = States.HTML) ↔
        st.startsWithLit closeEscapedLit = true) ∧
      (st.startsWithLit closeEscapedLit = true →
        hbTokenize s st = HbResult.token TokenKind.embed
          (setHandlebarsKind s States.HTML) (st.advanceN 2))) ∧
    ((hbTokenize s st).outState.handlebarsKind = States.Expression →
      s.handlebarsKind ≠ States.Expression →
      s.handlebarsKind = States.HTML ∧ st.startsWithLit openEscapedLit = true ∧
        st.startsWithLit openUnescapedLit = false) := by
  refine ⟨?_, ?_, ?_⟩
  · intro hkU
    have hk0 : ¬ s.handlebarsKind = States.HTML := by
      rw [hkU]
      decide
    have hdis : hbTokenize s st = hbTokenizeExpr s st := by
      unfold hbTokenize
      rw [if_neg hk0]
    constructor
    · constructor
      · intro hH
        rcases hbTokenizeExpr_outState s st with h | ⟨hkE, hsw, hout⟩ | ⟨hkU2, hsw, hout⟩
        · rw [hdis, h, hkU] at hH
          exact absurd hH (by decide)
        · rw [hkU] at hkE
          exact States.noConfusion hkE
        · exact hsw
      · intro hsw
        rw [hdis, hbTokenizeExpr_closeU s st hkU hsw]
        rfl
    · intro hsw
      rw [hdis]
      exact hbTokenizeExpr_closeU s st hkU hsw
  · intro hkE
    have hk0 : ¬ s.handlebarsKind = States.HTML := by
      rw [hkE]
      decide
    have hdis : hbTokenize s st = hbTokenizeExpr s st := by
      unfold hbTokenize
      rw [if_neg hk0]
    constructor
    · constructor
      · intro hH
        rcases hbTokenizeExpr_outState s st with h | ⟨hkE2, hsw, hout⟩ | ⟨hkU, hsw, hout⟩
        · rw [hdis, h, hkE] at hH
          exact absurd hH (by decide)
        · exact hsw
        · rw [hkE] at hkU
          exact States.noConfusion hkU
      · intro hsw
        rw [hdis, hbTokenizeExpr_closeE s st hkE hsw]
        rfl
    · intro hsw
      rw [hdis]
      exact hbTokenizeExpr_closeE s st hkE hsw
  · intro hE hne
    by_cases hk : s.handlebarsKind = States.HTML
    · have hdis : hbTokenize s st = hbTokenizeHtml s st := by
        unfold hbTokenize
        rw [if_pos hk]
      by_cases hU : st.startsWithLit openUnescapedLit = true
      · rw [hdis, hbTokenizeHtml_openU s st hU] at hE
        exact absurd hE (by simp [HbResult.outState, setHandlebarsKind])
      · have hUf : st.startsWithLit openUnescapedLit = false := by simpa using hU
        by_cases hEo : st.startsWithLit openEscapedLit = true
        · exact ⟨hk, hEo, hUf⟩
        · have hEof : st.startsWithLit openEscapedLit = false := by simpa using hEo
          rw [hdis, hbTokenizeHtml_noMatch s st hEof] at hE
          rw [show (HbResult.delegate s st).outState = s from rfl] at hE
          rw [hE] at hk
          exact absurd hk (by decide)
    · have hdis : hbTokenize s st = hbTokenizeExpr s st := by
        unfold hbTokenize
        rw [if_neg hk]
      rw [hdis] at hE
      rcases hbTokenizeExpr_outState s st with h | ⟨hkE2, hsw, hout⟩ | ⟨hkU2, hsw, hout⟩
      · rw [h] at hE
        exact absurd hE hne
      · exact absurd hkE2 hne
      · rw [hout] at hE
        exact absurd hE (by simp [setHandlebarsKind])

def c3State : HandlebarsState := setHandlebarsKind hbInitState States.UnescapedExpression

def c3Stream : IStream := ⟨['}', '}', '}'], 0⟩

/-- C3 witness: from UnescapedExpression over a closing triple brace, the
step emits EmbedUnescaped and returns to the HTML sub-mode. -/
theorem hb_C3_witness :
    hbTokenize c3State c3Stream = HbResult.token TokenKind.embedUnescaped
      (setHandlebarsKind c3State States.HTML) (c3Stream.advanceN 3) :=
  ((hb_C3 c3State c3Stream).1 rfl).2 (by decide)

/-- C4: in Expression or UnescapedExpression, `else` followed by a space,
tab or closing brace is a Keyword token with the cursor advanced exactly 4
characters past `else`; `else` followed by any other character is rewound
and tokenized by the generic variable rule, consuming the whole maximal
word run (at least the 4 characters of `else`).  Concretely, the line
consisting of a double brace, `else` and a closing double brace yields
Embed, Keyword, Embed, and the same line with `elseValue` yields Embed,
Variable, Embed where the Variable token consumes exactly the text
`elseValue`. -/
theorem hb_C4 (s : HandlebarsState) (st : IStream)
    (hk : s.handlebarsKind ≠ States.HTML)
    (he : st.startsWithLit elseLit = true) :
    ((st.advanceN 4).peek = some ' ' ∨ (st.advanceN 4).peek = some '\t' ∨
        (st.advanceN 4).peek = some '}' →
      hbTokenize s st = HbResult.token TokenKind.keyword s (st.advanceN 4)) ∧
    (∀ c : Char, (st.advanceN 4).peek = some c → ¬(c = ' ' ∨ c = '\t' ∨ c = '}') →
      hbTokenize s st = HbResult.token TokenKind.variableName s (st.advanceWhileWord).2 ∧
      4 ≤ (st.advanceWhileWord).1.length) ∧
    hbRun elseLine = some ([(TokenKind.embed, 0, 2), (TokenKind.keyword, 2, 6),
      (TokenKind.embed, 6, 8)], hbInitState) ∧
    hbRun elseValueLine = some ([(TokenKind.embed, 0, 2),
      (TokenKind.variableName, 2, 11), (TokenKind.embed, 11, 13)], hbInitState) ∧
    (elseValueLine.drop 2).take 9 = ['e', 'l', 's', 'e', 'V', 'a', 'l', 'u', 'e'] := by
  have hdis : hbTokenize s st = hbTokenizeExpr s st := by
    unfold hbTokenize
    rw [if_neg hk]
  refine ⟨?_, ?_, by decide, by decide, by decide⟩
  · intro hnext
    rw [hdis]
    exact hbTokenizeExpr_else_kw s st he hnext
  · intro c hc hcne
    have hnot : ¬((st.advanceN 4).peek = some ' ' ∨ (st.advanceN 4).peek = some '\t' ∨
        (st.advanceN 4).peek = some '}') := by
      rintro (h | h | h) <;> rw [hc] at h <;> injection h with h2
      · exact hcne (Or.inl h2)
      · exact hcne (Or.inr (Or.inl h2))
      · exact hcne (Or.inr (Or.inr h2))
    rw [hdis]
    exact hbTokenizeExpr_else_var s st he hnot

def c4State : HandlebarsState := setHandlebarsKind hbInitState States.Expression

def c4Stream : IStream := ⟨elseLine, 2⟩

/-- C4 witness: `else` directly before the closing delimiter is a Keyword
token of exactly 4 characters. -/
theorem hb_C4_witness :
    hbTokenize c4State c4Stream = HbResult.token TokenKind.keyword c4State
      (c4Stream.advanceN 4) :=
  (hb_C4 c4State c4Stream (by decide) (by decide)).1 (by decide)

/-- C5: in the HTML (Markup) sub-mode, the opening triple brace is tried
first and emits EmbedUnescaped with a transition to UnescapedExpression;
only when it fails is the opening double brace tried, emitting Embed with
a transition to Expression; when neither matches the call falls through to
the host HTML tokenizer with the state and cursor untouched.  In
particular an input starting with a triple brace is never tokenized as an
Embed match. -/
theorem hb_C5 (s : HandlebarsState) (st : IStream)
    (hk : s.handlebarsKind = States.HTML) :
    (st.startsWithLit openUnescapedLit = true →
      hbTokenize s st = HbResult.token TokenKind.embedUnescaped
        (setHandlebarsKind s States.UnescapedExpression) (st.advanceN 3)) ∧
    (st.startsWithLit openUnescapedLit = false →
      st.startsWithLit openEscapedLit = true →
      hbTokenize s st = HbResult.token TokenKind.embed
        (setHandlebarsKind s States.Expression) (st.advanceN 2)) ∧
    (st.startsWithLit openEscapedLit = false →
      hbTokenize s st = HbResult.delegate s st) := by
  have hdis : hbTokenize s st = hbTokenizeHtml s st := by
    unfold hbTokenize
    rw [if_pos hk]
  refine ⟨?_, ?_, ?_⟩
  · intro h
    rw [hdis]
    exact hbTokenizeHtml_openU s st h
  · intro h1 h2
    rw [hdis]
    exact hbTokenizeHtml_openE s st h1 h2
  · intro h
    rw [hdis]
    exact hbTokenizeHtml_noMatch s st h

def c5Stream : IStream := ⟨['{', '{', '{'], 0⟩

/-- C5 witness: an input starting with a triple brace is tokenized as
EmbedUnescaped with the transition to UnescapedExpression. -/
theorem hb_C5_witness :
    hbTokenize hbInitState c5Stream = HbResult.token TokenKind.embedUnescaped
      (setHandlebarsKind hbInitState States.UnescapedExpression) (c5Stream.advanceN 3) :=
  (hb_C5 hbInitState c5Stream rfl).1 (by decide)

/-- C6: makeClone returns a copy with the same discriminator and the same
inherited fields (indeed an equal value), and the copy is independent: in
the functional embedding a later update of the clone's discriminator
yields a state whose inherited fields still equal the original's, while
the original value is untouched by construction. -/
theorem hb_C6 (s : HandlebarsState) (k : States) :
    s.makeClone = s ∧
    s.makeClone.handlebarsKind = s.handlebarsKind ∧
    s.makeClone.toHtmlState = s.toHtmlState ∧
    (setHandlebarsKind s.makeClone k).handlebarsKind = k ∧
    (setHandlebarsKind s.makeClone k).toHtmlState = s.toHtmlState :=
  ⟨rfl, rfl, rfl, rfl, rfl⟩

/-- C7: tokenizing the block-open line (double brace, `#if`, space, `cond`,
closing double brace) from the initial Markup state produces the token
list Embed, Keyword, whitespace (the empty token type), Variable, Embed
with the spans shown, so the named token kinds are exactly Embed, Keyword,
Variable, Embed; the Keyword token spans exactly `#if` and the Variable
token exactly `cond`; and in general, in an expression sub-mode a `#`
under the cursor always yields a Keyword token consuming the maximal run
of non-whitespace, non-closing-brace characters with the state (hence the
discriminator) unchanged. -/
theorem hb_C7 :
    hbRun ifCondLine = some (ifCondTokens, hbInitState) ∧
    (ifCondTokens.filter (fun x => x.1 != TokenKind.empty)).map (fun x => x.1) =
      [TokenKind.embed, TokenKind.keyword, TokenKind.variableName, TokenKind.embed] ∧
    (ifCondLine.drop 2).take 3 = ['#', 'i', 'f'] ∧
    (ifCondLine.drop 6).take 4 = ['c', 'o', 'n', 'd'] ∧
    (∀ (s : HandlebarsState) (st : IStream), s.handlebarsKind ≠ States.HTML →
      st.peek = some '#' →
      hbTokenize s st = HbResult.token TokenKind.keyword s (st.advanceWhileWord).2) := by
  refine ⟨by decide, by decide, by decide, by decide, ?_⟩
  intro s st hk hp
  have hdis : hbTokenize s st = hbTokenizeExpr s st := by
    unfold hbTokenize
    rw [if_neg hk]
  rw [hdis]
  exact hbTokenizeExpr_hash s st hp

def c7State : HandlebarsState := setHandlebarsKind hbInitState States.Expression

def c7Stream : IStream := ⟨ifCondLine, 2⟩

/-- C7 witness: the hash rule applied inside the concrete block-open line. -/
theorem hb_C7_witness :
    hbTokenize c7State c7Stream = HbResult.token TokenKind.keyword c7State
      (c7Stream.advanceWhileWord).2 :=
  hb_C7.2.2.2.2 c7State c7Stream (by decide) (by decide)

/-- C8: for every host tokenizer satisfying the progress contract, running
tokenize repeatedly from any state neither loses nor duplicates
characters: the concatenation of the spans consumed by the successive
calls is exactly the remaining input (the whole input when started at
position zero). -/
theorem hb_C8 (host : HandlebarsState → IStream → HandlebarsState × IStream)
    (hc : HostContract host) (fuel : Nat) (s : HandlebarsState) (st : IStream)
    (hf : st.src.length - st.pos ≤ fuel) :
    joinSpans (runSpans host fuel s st) = st.src.drop st.pos := by
  induction fuel generalizing s st with
  | zero =>
    have hle : st.src.length ≤ st.pos := by omega
    have hdrop : st.src.drop st.pos = [] := List.drop_eq_nil_of_le hle
    simp [runSpans, joinSpans, hdrop]
  | succ fuel ih =>
    by_cases hpos : st.src.length ≤ st.pos
    · have hdrop : st.src.drop st.pos = [] := List.drop_eq_nil_of_le hpos
      simp [runSpans, hpos, joinSpans, hdrop]
    · push_neg at hpos
      obtain ⟨hsrc, hlt, hle⟩ := tokenizeStep_spec host hc s st hpos
      have hf' : (tokenizeStep host s st).2.src.length -
          (tokenizeStep host s st).2.pos ≤ fuel := by
        rw [hsrc]
        omega
      have hIH := ih (tokenizeStep host s st).1 (tokenizeStep host s st).2 hf'
      rw [runSpans, if_neg (by omega : ¬ st.src.length ≤ st.pos), joinSpans, hIH, hsrc]
      have hdd : (st.src.drop st.pos).drop ((tokenizeStep host s st).2.pos - st.pos) =
          st.src.drop (tokenizeStep host s st).2.pos := by
        rw [List.drop_drop]
        congr 1
        omega
      rw [← hdd, List.take_append_drop]

/-- A trivially conforming host tokenizer: consume one character. -/
def hostAdvanceOne : HandlebarsState → IStream → HandlebarsState × IStream :=
  fun s st => (s, st.advanceN 1)

def c8Line : List Char := ['{', '{', 'x', '}', '}']

/-- C8 witness: over a concrete five-character line the concatenated spans
reproduce the input exactly. -/
theorem hb_C8_witness :
    joinSpans (runSpans hostAdvanceOne 5 hbInitState ⟨c8Line, 0⟩) = c8Line := by
  have hc : HostContract hostAdvanceOne := by
    intro s st h
    refine ⟨rfl, ?_, ?_⟩
    · show st.pos < st.pos + 1
      omega
    · show st.pos + 1 ≤ st.src.length
      omega
  have h := hb_C8 hostAdvanceOne hc 5 hbInitState ⟨c8Line, 0⟩ (by decide)
  simpa using h

/-- C9: getInitialState always returns a state in the HTML (Markup)
sub-mode, in the Content phase, with empty tag, attribute, embedded
content type and quote and a zero attribute-value length; and
getLeavingNestedModeData, whenever the superclass result is non-null,
replaces the after-state with exactly such a fresh state (and passes a
null result through). -/
theorem hb_C9 (modeId : String) (d : LeavingNestedModeData) :
    (getInitialState modeId).handlebarsKind = States.HTML ∧
    (getInitialState modeId).kind = HtmlStates.Content ∧
    (getInitialState modeId).lastTagName = "" ∧
    (getInitialState modeId).lastAttributeName = "" ∧
    (getInitialState modeId).embeddedContentType = "" ∧
    (getInitialState modeId).attributeValueQuote = "" ∧
    (getInitialState modeId).attributeValueLength = 0 ∧
    getLeavingNestedModeData modeId none = none ∧
    getLeavingNestedModeData modeId (some d) =
      some { d with stateAfterNestedMode := IState.handlebars (getInitialState modeId) } :=
  ⟨rfl, rfl, rfl, rfl, rfl, rfl, rfl, rfl, rfl⟩

/-- C10: whenever tokenize returns a token from a template-layer branch
(that is, without delegating to the host HTML tokenizer), the cursor has
strictly advanced within the same line, so the template layer never
returns a zero-width token. -/
theorem hb_C10 (s : HandlebarsState) (st : IStream) (k : TokenKind)
    (s' : HandlebarsState) (st' : IStream)
    (h : hbTokenize s st = HbResult.token k s' st') :
    st.pos < st'.pos ∧ st'.src = st.src := by
  obtain ⟨h1, h2, h3⟩ := hbTokenize_token_progress s st k s' st' h
  exact ⟨h2, h1⟩

def c10Stream : IStream := ⟨['{', '{', 'x'], 0⟩

/-- C10 witness: the opening-delimiter token advances the cursor by two on
a concrete line. -/
theorem hb_C10_witness :
    c10Stream.pos < (c10Stream.advanceN 2).pos ∧
    (c10Stream.advanceN 2).src = c10Stream.src :=
  hb_C10 hbInitState c10Stream TokenKind.embed
    (setHandlebarsKind hbInitState States.Expression) (c10Stream.advanceN 2) (by decide)
